import Mathlib

/-!
Verification of the url_predictor classifier (Rust core in src/lib.rs).

The Rust core is translated into executable Lean definitions.  External
collaborators of the core (the RFC 3986-class absolute-URL parser/normalizer,
the IDNA-to-ASCII normalizer, the OS file-path-to-URL conversion) are
modelled from the specification, as documented on the respective
definitions.  Strings are modelled as their character lists (the inputs of
interest are ASCII, where Rust's byte indexing and character indexing
coincide).
-/

set_option maxHeartbeats 1000000
set_option maxRecDepth 4000

namespace UrlPredictor

/-! ## List-level string helpers (Rust `str` primitives) -/

/-- Rust `s.split_once(c)`: split at the first occurrence of a character. -/
def splitOnceL (c : Char) : List Char → Option (List Char × List Char)
  | [] => none
  | x :: xs =>
    if x = c then some ([], xs)
    else
      match splitOnceL c xs with
      | none => none
      | some (a, b) => some (x :: a, b)

/-- Rust `s.rsplit_once(c)`: split at the last occurrence of a character. -/
def rsplitOnceL (c : Char) (l : List Char) : Option (List Char × List Char) :=
  match splitOnceL c l.reverse with
  | none => none
  | some (a, b) => some (b.reverse, a.reverse)

/-- Rust `s.contains(c)` for a single character. -/
def containsCharL (l : List Char) (c : Char) : Bool :=
  l.any (fun x => x = c)

/-- Rust `s.split(c)` semantics: keeps empty pieces, `[] → [[]]`. -/
def splitCharL (c : Char) : List Char → List (List Char)
  | [] => [[]]
  | x :: xs =>
    let r := splitCharL c xs
    if x = c then [] :: r
    else
      match r with
      | [] => [[x]]
      | y :: ys => (x :: y) :: ys

/-- The prefix of `l` before the first occurrence of `c` (whole list if absent);
Rust `s.split(c).next().unwrap_or(s)`. -/
def takeUntilL (c : Char) (l : List Char) : List Char :=
  match splitOnceL c l with
  | none => l
  | some (a, _) => a

/-- Rust `s.starts_with(pre)`. -/
def startsWithL : List Char → List Char → Bool
  | _, [] => true
  | [], _ :: _ => false
  | x :: xs, y :: ys => x = y && startsWithL xs ys

/-- Longest prefix of `l` on which `p` is false, and the rest. -/
def spanUntilL (p : Char → Bool) (l : List Char) : List Char × List Char :=
  (l.takeWhile (fun c => !p c), l.dropWhile (fun c => !p c))

/-- Number of maximal whitespace-free runs; Rust `s.split_whitespace().count()`. -/
def countTokensAux : Bool → List Char → Nat
  | _, [] => 0
  | inTok, c :: cs =>
    if c.isWhitespace then countTokensAux false cs
    else if inTok then countTokensAux true cs
    else 1 + countTokensAux true cs

/-- Rust `s.trim()` at the character-list level. -/
def trimL (l : List Char) : List Char :=
  ((l.dropWhile Char.isWhitespace).reverse.dropWhile Char.isWhitespace).reverse

/-! ## String wrappers -/

def strSplitOnce (s : String) (c : Char) : Option (String × String) :=
  match splitOnceL c s.data with
  | none => none
  | some (a, b) => some (⟨a⟩, ⟨b⟩)

def strRSplitOnce (s : String) (c : Char) : Option (String × String) :=
  match rsplitOnceL c s.data with
  | none => none
  | some (a, b) => some (⟨a⟩, ⟨b⟩)

def strContains (s : String) (c : Char) : Bool :=
  containsCharL s.data c

def strStartsWith (s pre : String) : Bool :=
  startsWithL s.data pre.data

def strEndsWith (s suf : String) : Bool :=
  startsWithL s.data.reverse suf.data.reverse

def splitChar (s : String) (c : Char) : List String :=
  (splitCharL c s.data).map (⟨·⟩)

def strTakeUntil (s : String) (c : Char) : String :=
  ⟨takeUntilL c s.data⟩

def countTokens (s : String) : Nat :=
  countTokensAux false s.data

def rustTrim (s : String) : String :=
  ⟨trimL s.data⟩

/-- Rust `str::to_ascii_lowercase`. -/
def asciiLowercase (s : String) : String :=
  ⟨s.data.map Char.toLower⟩

/-- Rust `s.trim_end_matches('.')`: drop every trailing dot. -/
def stripAllTrailingDots (s : String) : String :=
  ⟨(s.data.reverse.dropWhile (fun c => c = '.')).reverse⟩

/-- Rust `s.strip_prefix(pre)`. -/
def stripPre (s pre : String) : Option String :=
  if strStartsWith s pre then some ⟨s.data.drop pre.data.length⟩ else none

/-! ## Character classes -/

def isHexDigitChar (c : Char) : Bool :=
  c.isDigit || ('a' ≤ c && c ≤ 'f') || ('A' ≤ c && c ≤ 'F')

def hexDigitVal (c : Char) : Nat :=
  if c.isDigit then c.toNat - 48
  else if 'a' ≤ c && c ≤ 'f' then c.toNat - 87
  else if 'A' ≤ c && c ≤ 'F' then c.toNat - 55
  else 0

def natOfDecDigits (l : List Char) : Nat :=
  l.foldl (fun n c => n * 10 + (c.toNat - 48)) 0

def natOfHexDigits (l : List Char) : Nat :=
  l.foldl (fun n c => n * 16 + hexDigitVal c) 0

/-! ## IP address parsing (Rust `std::net` textual formats) -/

/-- One IPv4 octet as accepted by `std`: decimal digits only, no leading
zero (except the single digit 0), value at most 255. -/
def parseStdOctet (l : List Char) : Option Nat :=
  if l = [] then none
  else if !l.all Char.isDigit then none
  else if 1 < l.length ∧ l.headD '0' = '0' then none
  else
    let n := natOfDecDigits l
    if n ≤ 255 then some n else none

/-- Rust `Ipv4Addr::from_str`: exactly four octets separated by dots. -/
def ipv4AddrParseL (l : List Char) : Option (Nat × Nat × Nat × Nat) :=
  match splitCharL '.' l with
  | [a, b, c, d] =>
    match parseStdOctet a, parseStdOctet b, parseStdOctet c, parseStdOctet d with
    | some x, some y, some z, some w => some (x, y, z, w)
    | _, _, _, _ => none
  | _ => none

def ipv4AddrParse (s : String) : Option (Nat × Nat × Nat × Nat) :=
  ipv4AddrParseL s.data

/-- One 16-bit IPv6 group: one to four hexadecimal digits. -/
def parseHexGroup (l : List Char) : Option Nat :=
  if l = [] ∨ 4 < l.length then none
  else if !l.all isHexDigitChar then none
  else some (natOfHexDigits l)

/-- Split at the first occurrence of a double colon. -/
def splitColonColon : List Char → Option (List Char × List Char)
  | [] => none
  | [_] => none
  | x :: y :: rest =>
    if x = ':' ∧ y = ':' then some ([], rest)
    else
      match splitColonColon (y :: rest) with
      | none => none
      | some (a, b) => some (x :: a, b)

/-- Parse colon-separated groups where no embedded IPv4 tail is allowed. -/
def parseGroupsNoV4 : List (List Char) → Option (List Nat)
  | [] => some []
  | p :: ps =>
    match parseHexGroup p, parseGroupsNoV4 ps with
    | some g, some gs => some (g :: gs)
    | _, _ => none

/-- Parse colon-separated groups where the last group may be an embedded
dotted-quad IPv4 address (contributing two 16-bit groups). -/
def parseGroupsV4Tail : List (List Char) → Option (List Nat)
  | [] => some []
  | [p] =>
    if containsCharL p '.' then
      match ipv4AddrParseL p with
      | some (a, b, c, d) => some [a * 256 + b, c * 256 + d]
      | none => none
    else
      match parseHexGroup p with
      | some g => some [g]
      | none => none
  | p :: ps =>
    match parseHexGroup p, parseGroupsV4Tail ps with
    | some g, some gs => some (g :: gs)
    | _, _ => none

/-- Rust `Ipv6Addr::from_str`: eight 16-bit hexadecimal groups, at most one
double-colon zero-compression, optional embedded IPv4 tail. -/
def ipv6AddrParse (s : String) : Option (List Nat) :=
  let l := s.data
  match splitColonColon l with
  | some (left, right) =>
    if (splitColonColon right).isSome then none
    else
      let lparts : Option (List Nat) :=
        if left = [] then some [] else parseGroupsNoV4 (splitCharL ':' left)
      let rparts : Option (List Nat) :=
        if right = [] then some [] else parseGroupsV4Tail (splitCharL ':' right)
      match lparts, rparts with
      | some lg, some rg =>
        if lg.length + rg.length ≤ 7 then
          some (lg ++ List.replicate (8 - lg.length - rg.length) 0 ++ rg)
        else none
      | _, _ => none
  | none =>
    match parseGroupsV4Tail (splitCharL ':' l) with
    | some g => if g.length = 8 then some g else none
    | none => none

/-- Rust `IpAddr::from_str` succeeds (IPv4 or IPv6). -/
def ipAddrParseOk (s : String) : Bool :=
  (ipv4AddrParse s).isSome || (ipv6AddrParse s).isSome

/-! ## Modelled external absolute-URL parser/normalizer

The classifier consumes a generic external absolute-URL parser/normalizer
(RFC 3986 / WHATWG class).  It is not part of this repository; the
definitions below model it from the spec for the host-based (special)
schemes: scheme validation, authority splitting with userinfo at the last
at-sign, domain lowercasing, trailing-number IPv4 host canonicalization
(with zero-fill of short dotted forms), bracketed IPv6 hosts, digits-only
ports with default-port elision, minimum path `/`, and percent-encoding of
whitespace in paths.  Dot-segment collapsing, percent-decoding and
non-ASCII hosts are outside the model. -/

/-- Validity of a URL scheme (also the check done in `is_valid_scheme` in
the source): first character ASCII alphabetic, the rest alphanumeric or
one of `+`, `-`, `.`. -/
def is_valid_scheme (s : String) : Bool :=
  match s.data with
  | [] => false
  | c :: cs => c.isAlpha && cs.all (fun x => x.isAlphanum || x = '+' || x = '-' || x = '.')

inductive UrlHostKind where
  | domain (s : String)
  | ipv4 (n : Nat)
  | ipv6 (gs : List Nat)
deriving Repr, DecidableEq

/-- Serialize a 32-bit value as a dotted quad. -/
def ipv4ToStr (n : Nat) : String :=
  toString (n / 16777216 % 256) ++ "." ++ toString (n / 65536 % 256) ++ "." ++
    toString (n / 256 % 256) ++ "." ++ toString (n % 256)

def hexDigitsRev (fuel n : Nat) (acc : List Char) : List Char :=
  match fuel with
  | 0 => acc
  | fuel + 1 =>
    if n = 0 then acc
    else hexDigitsRev fuel (n / 16) ((Nat.digitChar (n % 16)) :: acc)

def hexGroupToStr (g : Nat) : String :=
  if g = 0 then "0" else ⟨hexDigitsRev 4 g []⟩

/-- Index and length of the longest (leftmost on ties) run of zeros of
length at least two. -/
def longestZeroRun (gs : List Nat) : Option (Nat × Nat) :=
  let runs := (List.range gs.length).map (fun i =>
    (i, ((gs.drop i).takeWhile (fun g => g = 0)).length))
  let best := runs.foldl (fun acc r => if r.2 > acc.2 then r else acc) (0, 0)
  if 2 ≤ best.2 then some best else none

/-- Canonical textual form of an IPv6 address (lowercase hex groups,
longest zero run compressed with a double colon). -/
def ipv6ToStr (gs : List Nat) : String :=
  let joinGroups := fun (l : List Nat) =>
    String.intercalate ":" (l.map hexGroupToStr)
  match longestZeroRun gs with
  | none => joinGroups gs
  | some (i, len) =>
    joinGroups (gs.take i) ++ "::" ++ joinGroups (gs.drop (i + len))

/-- What Rust `Url::host_str` returns (IPv6 hosts come bracketed). -/
def hostToStr : UrlHostKind → String
  | .domain s => s
  | .ipv4 n => ipv4ToStr n
  | .ipv6 gs => "[" ++ ipv6ToStr gs ++ "]"

structure ParsedUrl where
  scheme : String
  username : String
  /-- Empty string means no password (the classifier only ever checks
  `password().unwrap_or("").is_empty()`). -/
  password : String
  host : Option UrlHostKind
  port : Option Nat
  path : String
  query : Option String
  fragment : Option String
deriving Repr, DecidableEq

def specialSchemes : List String := ["http", "https", "ftp", "file", "ws", "wss"]

def defaultPort (scheme : String) : Option Nat :=
  if scheme = "http" ∨ scheme = "ws" then some 80
  else if scheme = "https" ∨ scheme = "wss" then some 443
  else if scheme = "ftp" then some 21
  else none

def hexDigitUpper (n : Nat) : Char :=
  if n < 10 then Char.ofNat (48 + n) else Char.ofNat (55 + n)

def pctEncodeChar (c : Char) : List Char :=
  ['%', hexDigitUpper (c.toNat / 16 % 16), hexDigitUpper (c.toNat % 16)]

/-- The path percent-encode set (C0 controls, space, and the WHATWG path
set), restricted to ASCII inputs. -/
def pathEncodeSet (c : Char) : Bool :=
  c.toNat < 32 || c = ' ' || c = '"' || c = '<' || c = '>' || c = '`' ||
    c = '{' || c = '}' || c.toNat = 127

def pctEncodePath (s : String) : String :=
  ⟨s.data.foldr (fun c acc => (if pathEncodeSet c then pctEncodeChar c else [c]) ++ acc) []⟩

/-- Forbidden host code points for registrable-domain hosts. -/
def forbiddenHostChar (c : Char) : Bool :=
  c = ' ' || c = '#' || c = '%' || c = '/' || c = ':' || c = '?' || c = '@' ||
    c = '[' || c = '\\' || c = ']' || c = '<' || c = '>' || c = '^' || c = '|' ||
    c.toNat < 32 || c.toNat = 127

/-- One piece of a candidate IPv4 host, decimal digits (the model omits
the hexadecimal and octal forms). -/
def parseUrlIpv4Piece (l : List Char) : Option Nat :=
  if l ≠ [] ∧ l.all Char.isDigit then some (natOfDecDigits l) else none

/-- The IPv4 host parser of the URL standard: at most four dot-separated
numeric pieces; every piece but the last below 256, the last filling the
remaining bytes (this is the zero-padding of short dotted forms, for
example 1.2.7 to 1.2.0.7). -/
def urlIpv4Parse (parts : List (List Char)) : Option Nat :=
  if parts = [] ∨ 4 < parts.length then none
  else
    match (parts.mapM parseUrlIpv4Piece : Option (List Nat)) with
    | none => none
    | some ns =>
      let last := ns.getLastD 0
      let firsts := ns.dropLast
      if firsts.all (fun n => n < 256) ∧ last < 256 ^ (5 - ns.length) then
        some (firsts.foldl (fun acc n => acc * 256 + n) 0 * 256 ^ (5 - ns.length) + last)
      else none

/-- Host parsing for an unbracketed host of a special-scheme URL:
forbidden-character check, ASCII lowercasing (the model excludes non-ASCII
hosts), and IPv4 canonicalization when the last non-empty dot-piece is
numeric. -/
def urlHostParse (l : List Char) : Option UrlHostKind :=
  if l = [] then none
  else if l.any forbiddenHostChar then none
  else if !l.all (fun c => c.toNat < 128) then none
  else
    let d := l.map Char.toLower
    let parts := splitCharL '.' d
    let parts' := if parts.getLastD ['x'] = [] then parts.dropLast else parts
    if parts' = [] then none
    else if (parts'.getLastD []) ≠ [] ∧ (parts'.getLastD []).all Char.isDigit then
      (urlIpv4Parse parts').map .ipv4
    else some (.domain ⟨d⟩)

/-- Port text: empty means no port; otherwise decimal digits only, at most
65535, with the scheme's default port elided. -/
def urlPortParse (scheme : String) (ps : List Char) : Option (Option Nat) :=
  if ps = [] then some none
  else if ps.all Char.isDigit then
    let n := natOfDecDigits ps
    if n ≤ 65535 then
      if defaultPort scheme = some n then some none else some (some n)
    else none
  else none

/-- Host-and-port portion of an authority. -/
def urlHostPortParse (scheme : String) (l : List Char) : Option (UrlHostKind × Option Nat) :=
  match l with
  | '[' :: rest =>
    (match splitOnceL ']' rest with
     | none => none
     | some (inside, afterBr) =>
       match ipv6AddrParse ⟨inside⟩ with
       | none => none
       | some gs =>
         match afterBr with
         | [] => some (.ipv6 gs, none)
         | ':' :: ps =>
           (match urlPortParse scheme ps with
            | none => none
            | some p => some (.ipv6 gs, p))
         | _ => none)
  | _ =>
    let (hostL, portL) :=
      match splitOnceL ':' l with
      | none => (l, ([] : List Char))
      | some (h, p) => (h, p)
    match urlHostParse hostL with
    | none => none
    | some host =>
      match urlPortParse scheme portL with
      | none => none
      | some p => some (host, p)

/-- Modelled from the spec: the external absolute-URL parser (`Url::parse`
of the RFC 3986 / WHATWG class), covering host-based (special) schemes. -/
def urlParse (s : String) : Option ParsedUrl :=
  match splitOnceL ':' s.data with
  | none => none
  | some (schemeL, rest) =>
    if !is_valid_scheme ⟨schemeL⟩ then none
    else
      let scheme := asciiLowercase ⟨schemeL⟩
      if !specialSchemes.contains scheme then none
      else
        let rest := rest.dropWhile (fun c => c = '/')
        let (auth, after) := spanUntilL (fun c => c = '/' || c = '?' || c = '#') rest
        let (userinfo, hostport) :=
          match rsplitOnceL '@' auth with
          | some (ui, hp) => (some ui, hp)
          | none => (none, auth)
        let (username, password) :=
          match userinfo with
          | none => (("" : String), ("" : String))
          | some ui =>
            match splitOnceL ':' ui with
            | none => ((⟨ui⟩ : String), ("" : String))
            | some (u, p) => ((⟨u⟩ : String), (⟨p⟩ : String))
        match urlHostPortParse scheme hostport with
        | none => none
        | some (host, port) =>
          let (pathL, qf) := spanUntilL (fun c => c = '?' || c = '#') after
          let path := if pathL = [] then "/" else pctEncodePath ⟨pathL⟩
          let (query, fragment) :=
            match qf with
            | '?' :: qrest =>
              let (q, f) := spanUntilL (fun c => c = '#') qrest
              ((some (⟨q⟩ : String)),
                match f with
                | '#' :: fr => some (⟨fr⟩ : String)
                | _ => none)
            | '#' :: frest => (none, some (⟨frest⟩ : String))
            | _ => (none, none)
          some ⟨scheme, username, password, some host, port, path, query, fragment⟩

/-- Serialization of a parsed URL back to a string (`Url::to_string`). -/
def ParsedUrl.toStr (u : ParsedUrl) : String :=
  let userinfo :=
    if u.username = "" ∧ u.password = "" then ""
    else u.username ++ (if u.password = "" then "" else ":" ++ u.password) ++ "@"
  let hostS :=
    match u.host with
    | some h => hostToStr h
    | none => ""
  let portS :=
    match u.port with
    | none => ""
    | some p => ":" ++ toString p
  u.scheme ++ "://" ++ userinfo ++ hostS ++ portS ++ u.path ++
    (match u.query with | none => "" | some q => "?" ++ q) ++
    (match u.fragment with | none => "" | some f => "#" ++ f)

/-! ## Core data model (Decision, Policy, suffix database) -/

inductive Decision where
  | Navigate (url : String)
  | Search (query : String)
deriving Repr, DecidableEq

structure Policy where
  allow_intranet_multi_label : Bool
  allow_intranet_single_label : Bool
  allow_private_suffix : Bool
  allowed_schemes : List String
  allow_file_paths : Bool
deriving Repr, DecidableEq

/-- `Policy::default()` from the source. -/
def Policy.default : Policy :=
  { allow_intranet_multi_label := false
    allow_intranet_single_label := false
    allow_private_suffix := true
    allowed_schemes := ["about", "chrome", "duck", "edge", "file", "ftp", "http", "https", "view-source"]
    allow_file_paths := false }

/-- The ICANN-ish table of `DemoSuffixDb::new`. -/
def demoIcann : List String :=
  ["com", "org", "net", "edu", "gov", "mil", "int", "info", "io", "co",
   "uk", "pt", "de", "fr", "es", "it", "ru", "cn", "jp", "br", "in", "test"]

/-- The private table of `DemoSuffixDb::new`. -/
def demoPrivate : List String := ["appspot.com", "github.io", "pages.dev"]

/-- `DemoSuffixDb::has_known_suffix`: lowercase, drop trailing dots, need
at least two labels; the last label must be in the ICANN table, or (when
private entries are allowed) the last two labels must form a private entry. -/
def demoHasKnownSuffix (host : String) (allowPrivate : Bool) : Bool :=
  let h := asciiLowercase (stripAllTrailingDots host)
  let labels := splitChar h '.'
  if labels.length < 2 then false
  else
    let tld := labels.getLastD ""
    if demoIcann.contains tld then true
    else if allowPrivate ∧ 2 ≤ labels.length then
      demoPrivate.contains (labels.getD (labels.length - 2) "" ++ "." ++ tld)
    else false

/-! ## Modelled external collaborators of the classifier -/

/-- Modelled from the spec: the external IDNA-to-ASCII normalizer
(`idna::domain_to_ascii`).  The model covers ASCII hosts, which it
lowercases; anything outside the ASCII letters, digits, hyphen, dot and
underscore is treated as failing normalization. -/
def to_idna_ascii (host : String) : Option String :=
  if host.data.all (fun c => c.isAlphanum ∨ c = '-' ∨ c = '.' ∨ c = '_') then
    some (asciiLowercase host)
  else none

/-- Modelled from the spec: the external OS file-path-to-URL conversion
(`Url::from_file_path`), for Unix-style absolute paths: the path must be
absolute, and is percent-encoded after the `file://` authority. -/
def is_file_path (input : String) : Option String :=
  if strStartsWith input "/" then some ("file://" ++ pctEncodePath input) else none

/-! ## The classifier pipeline (translated from `classify_with_db` and its
helpers in src/lib.rs) -/

/-- `ip_or_localhost_navigate` from the source: strip a leading `//`, split
authority and rest at the first `/`, extract the host (bracketed IPv6, or
a host:port split at the last colon only when the port text is non-empty
and all decimal digits), and when the host is `localhost` or an IP
literal, build the `http://` URL directly. -/
def ip_or_localhost_navigate (input : String) : Option Decision :=
  let s := rustTrim input
  let s := match stripPre s "//" with
    | some s2 => s2
    | none => s
  let (authority, rest) :=
    match strSplitOnce s '/' with
    | some (a, r) => (a, some r)
    | none => (s, (none : Option String))
  let hostPort : Option (String × Option String) :=
    if strStartsWith authority "[" then
      match splitOnceL ']' authority.data with
      | some (pre, post) =>
        some (⟨pre.drop 1⟩,
          match post with
          | ':' :: ps => some (⟨ps⟩ : String)
          | _ => none)
      | none => none
    else
      some (match strRSplitOnce authority ':' with
        | some (h, p) =>
          if p ≠ "" ∧ p.data.all Char.isDigit then (h, some p) else (authority, none)
        | none => (authority, none))
  match hostPort with
  | none => none
  | some (host, _port) =>
    if asciiLowercase host = "localhost" ∨ ipAddrParseOk host then
      let url := "http://"
      let url :=
        if strContains host ':' ∧ ¬ strStartsWith host "[" then
          url ++ "[" ++ host ++ "]"
        else url ++ host
      let url :=
        if strContains authority ':' ∧ ¬ strStartsWith authority "[" then
          match strRSplitOnce authority ':' with
          | some (_, p) =>
            if p ≠ "" ∧ p.data.all Char.isDigit then url ++ ":" ++ p else url
          | none => url
        else if strStartsWith authority "[" then
          match splitOnceL ']' authority.data with
          | some (_, post) =>
            match post with
            | ':' :: ps => url ++ ":" ++ (⟨ps⟩ : String)
            | _ => url
          | none => url
        else url
      let url :=
        match rest with
        | some r => url ++ "/" ++ r
        | none => url ++ "/"
      some (.Navigate url)
    else none

/-- `host_like_valid` from the source: non-empty, drop trailing dots,
non-empty again, every label 1-63 characters of ASCII alphanumerics or
hyphens with no leading or trailing hyphen, total length at most 253. -/
def labelValidCode (label : String) : Bool :=
  if label.data = [] ∨ 63 < label.data.length then false
  else if label.data.headD ' ' = '-' ∨ label.data.getLastD ' ' = '-' then false
  else label.data.all (fun c => c.isAlphanum || c = '-')

def host_like_valid (host : String) : Bool :=
  if host.data = [] then false
  else
    let h := stripAllTrailingDots host
    if h.data = [] then false
    else if !(splitChar h '.').all labelValidCode then false
    else if 253 < h.data.length then false
    else true

/-- `parse_absolute_url_if_allowed` from the source. -/
def parse_absolute_url_if_allowed (input : String) (policy : Policy) : Option String :=
  match strSplitOnce input ':' with
  | none => none
  | some (scheme, _) =>
    if is_valid_scheme scheme ∧ policy.allowed_schemes.contains (asciiLowercase scheme) then
      (urlParse input).map ParsedUrl.toStr
    else none

/-- `classify_host_like` from the source. -/
def classify_host_like (input : String) (policy : Policy)
    (db : String → Bool → Bool) : Option Decision :=
  match ip_or_localhost_navigate input with
  | some nav => some nav
  | none =>
    match urlParse ("http://" ++ input) with
    | none => none
    | some u =>
      match u.host with
      | none => none
      | some hk =>
        match to_idna_ascii (hostToStr hk) with
        | none => none
        | some ascii_host =>
          if ¬ host_like_valid ascii_host then none
          else
            let is_ipv4 := (ipv4AddrParse ascii_host).isSome
            let raw_host := strTakeUntil input '/'
            if is_ipv4 ∧ ¬ (ipv4AddrParse raw_host).isSome then none
            else
              let has_dot := strContains ascii_host '.'
              let has_username := u.username ≠ ""
              let has_port := u.port.isSome
              let has_path := u.path ≠ "" ∧ u.path ≠ "/"
              let has_fragment := (u.fragment.getD "") ≠ ""
              let ends_with_slash := strEndsWith input "/"
              if has_username ∧ (u.password = "") ∧ ¬ has_path ∧ ¬ has_port ∧ ¬ has_fragment then
                none
              else if has_dot ∧ policy.allow_intranet_multi_label ∧ ¬ has_path ∧ ¬ has_fragment
                  ∧ (u.query.getD "") = "" then
                some (.Navigate u.toStr)
              else if has_dot ∧ db ascii_host policy.allow_private_suffix then
                some (.Navigate u.toStr)
              else if strStartsWith ascii_host "www." ∧
                  (strContains (⟨ascii_host.data.drop 4⟩ : String) '.' ∧
                    db ⟨ascii_host.data.drop 4⟩ policy.allow_private_suffix) then
                some (.Navigate u.toStr)
              else if ¬ has_dot ∧ (policy.allow_intranet_single_label ∨ has_port) then
                some (.Navigate u.toStr)
              else if (has_dot ∨ has_port) ∧ (has_path ∨ ends_with_slash) then
                some (.Navigate u.toStr)
              else none

/-- Stage 3 of `classify_with_db`: scheme-relative input. -/
def scheme_relative_navigate (original : String) : Option Decision :=
  if strStartsWith original "//" then
    match urlParse ("https:" ++ original) with
    | some u =>
      match u.host with
      | some hk => if host_like_valid (hostToStr hk) then some (.Navigate u.toStr) else none
      | none => none
    | none => none
  else none

/-- Stage 4 of `classify_with_db`: OS file paths, only when enabled. -/
def file_path_navigate (policy : Policy) (original : String) : Option Decision :=
  if policy.allow_file_paths then (is_file_path original).map .Navigate else none

/-- `classify_with_db` from the source: trim, empty check, absolute URL,
scheme-relative, file path, multi-word bias, host-like heuristic, search
fallback. -/
def classify_with_db (input : String) (policy : Policy)
    (db : String → Bool → Bool) : Decision :=
  let original := rustTrim input
  if original = "" then .Search ""
  else
    match parse_absolute_url_if_allowed original policy with
    | some abs => .Navigate abs
    | none =>
      match scheme_relative_navigate original with
      | some d => d
      | none =>
        match file_path_navigate policy original with
        | some d => d
        | none =>
          if 1 < countTokens original then .Search original
          else
            match classify_host_like original policy db with
            | some nav => nav
            | none => .Search original

/-- `classify` from the source, with the default (demo) suffix database. -/
def classify (input : String) (policy : Policy) : Decision :=
  classify_with_db input policy demoHasKnownSuffix

/-! ## Policy deserialization at the FFI boundary

`ddg_up_classify_json` parses the policy with `serde_json`; the derived
deserializer requires every field of `Policy` except `allow_file_paths`
(the only field carrying a serde default attribute), ignores unknown
fields, and rejects duplicated known fields; on any error the boundary
substitutes `Policy::default()`. -/

inductive Json where
  | null
  | bool (b : Bool)
  | num (n : Int)
  | str (s : String)
  | arr (xs : List Json)
  | obj (fields : List (String × Json))

def jsonLookup (fields : List (String × Json)) (key : String) : Option Json :=
  (fields.find? (fun kv => kv.1 = key)).map (·.2)

def strListOfJson : List Json → Option (List String)
  | [] => some []
  | .str s :: rest => (strListOfJson rest).map (s :: ·)
  | _ => none

def policyFieldNames : List String :=
  ["allow_intranet_multi_label", "allow_intranet_single_label",
   "allow_private_suffix", "allowed_schemes", "allow_file_paths"]

/-- serde's view of a JSON value expected to be a boolean. -/
def jsonAsBool : Json → Option Bool
  | .bool b => some b
  | _ => none

/-- serde's view of a JSON value expected to be a set of strings. -/
def jsonAsStrList : Json → Option (List String)
  | .arr xs => strListOfJson xs
  | _ => none

/-- The derived `Deserialize` for `Policy`: all fields required except
`allow_file_paths` (defaulting to false), unknown fields ignored,
duplicated known fields rejected, field types as in the struct. -/
def policyFromJson : Json → Option Policy
  | .obj fields =>
    if policyFieldNames.all
        (fun k => (fields.filter (fun kv => kv.1 = k)).length ≤ 1) then
      match (jsonLookup fields "allow_intranet_multi_label").bind jsonAsBool with
      | none => none
      | some a =>
        match (jsonLookup fields "allow_intranet_single_label").bind jsonAsBool with
        | none => none
        | some b =>
          match (jsonLookup fields "allow_private_suffix").bind jsonAsBool with
          | none => none
          | some c =>
            match (jsonLookup fields "allowed_schemes").bind jsonAsStrList with
            | none => none
            | some ss =>
              match jsonLookup fields "allow_file_paths" with
              | none => some ⟨a, b, c, ss, false⟩
              | some jf =>
                match jsonAsBool jf with
                | some e => some ⟨a, b, c, ss, e⟩
                | none => none
    else none
  | _ => none

/-- The policy actually used by `ddg_up_classify_json`: parse failures are
non-fatal and fall back to the full default policy. -/
def policyFromJsonOrDefault (j : Json) : Policy :=
  (policyFromJson j).getD Policy.default

/-- `ddg_up_classify_json` after string conversion: `none` stands for
boundary input that is not valid JSON at all. -/
def ddg_up_classify (input : String) (policyJson : Option Json) : Decision :=
  let policy :=
    match policyJson with
    | none => Policy.default
    | some j => policyFromJsonOrDefault j
  classify input policy

/-! ## Spec-side predicates used to state the claims -/

/-- The host-validator contract as the claim words it, for one label:
1-63 bytes, ASCII alphanumerics or hyphens, neither starting nor ending
with a hyphen. -/
def specLabelOk (label : String) : Bool :=
  (1 ≤ label.data.length && label.data.length ≤ 63) &&
    label.data.all (fun c => c.isAlphanum || c = '-') &&
    !(strStartsWith label "-") && !(strEndsWith label "-")

/-- The claim's reading of the validator: strip exactly one trailing dot,
then check non-emptiness, the labels, and the 253 total bound. -/
def stripOneTrailingDot (s : String) : String :=
  if strEndsWith s "." then ⟨s.data.dropLast⟩ else s

def hostValidSpecOne (host : String) : Bool :=
  (decide ((stripOneTrailingDot host).data ≠ [])) &&
    (splitChar (stripOneTrailingDot host) '.').all specLabelOk &&
    (decide ((stripOneTrailingDot host).data.length ≤ 253))

/-- The amended reading: strip all trailing dots, then the same checks. -/
def hostValidSpecAll (host : String) : Bool :=
  (decide ((stripAllTrailingDots host).data ≠ [])) &&
    (splitChar (stripAllTrailingDots host) '.').all specLabelOk &&
    (decide ((stripAllTrailingDots host).data.length ≤ 253))

/-! ## Auxiliary lemmas -/

theorem string_eta : ∀ s : String, (⟨s.data⟩ : String) = s :=
  fun ⟨_⟩ => rfl

theorem string_ext {a b : String} (h : a.data = b.data) : a = b := by
  cases a
  cases b
  exact congrArg String.mk h

theorem splitOnceL_eq_none {c : Char} :
    ∀ {l : List Char}, containsCharL l c = false → splitOnceL c l = none := by
  intro l h
  induction l with
  | nil => rfl
  | cons x xs ih =>
    simp only [containsCharL, List.any_cons, Bool.or_eq_false_iff,
      decide_eq_false_iff_not] at h
    simp only [splitOnceL, if_neg h.1]
    rw [ih (by simpa [containsCharL] using h.2)]

theorem splitOnceL_cons_ne {c x : Char} (xs : List Char) (h : x ≠ c) :
    splitOnceL c (x :: xs) =
      (splitOnceL c xs).map (fun p => (x :: p.1, p.2)) := by
  simp only [splitOnceL, if_neg h]
  cases splitOnceL c xs with
  | none => rfl
  | some p => cases p; rfl

theorem splitOnceL_append {c : Char} :
    ∀ {a : List Char} (b : List Char), containsCharL a c = false →
      splitOnceL c (a ++ c :: b) = some (a, b) := by
  intro a
  induction a with
  | nil => intro b _; simp [splitOnceL]
  | cons x xs ih =>
    intro b h
    simp only [containsCharL, List.any_cons, Bool.or_eq_false_iff,
      decide_eq_false_iff_not] at h
    show splitOnceL c (x :: (xs ++ c :: b)) = some (x :: xs, b)
    rw [splitOnceL_cons_ne _ h.1, ih b (by simpa [containsCharL] using h.2)]
    rfl

theorem containsCharL_mem {l : List Char} {c x : Char}
    (h : containsCharL l c = false) (hx : x ∈ l) : x ≠ c := by
  simp only [containsCharL, List.any_eq_false, decide_eq_false_iff_not] at h
  simpa using h x hx

theorem startsWithL_cons_single (x : Char) (xs : List Char) (c : Char) :
    startsWithL (x :: xs) [c] = decide (x = c) := by
  simp [startsWithL]

theorem startsWithL_cons_two (x : Char) (xs : List Char) (c d : Char) (h : x ≠ c) :
    startsWithL (x :: xs) [c, d] = false := by
  simp [startsWithL, h]

theorem reverse_headD (l : List Char) : ∀ d : Char, l.reverse.headD d = l.getLastD d := by
  induction l with
  | nil => intro d; rfl
  | cons a l ih =>
    intro d
    rw [List.reverse_cons, List.getLastD_cons]
    cases hl : l.reverse with
    | nil =>
      have hnil : l = [] := by simpa using congrArg List.reverse hl
      subst hnil
      rfl
    | cons y ys =>
      have hy := ih a
      rw [hl] at hy
      simpa [hl] using hy

/-! ## Claim C1 -/

/-- Claim C1: the spec promises `classify(classify(x).url).url == classify(x).url`
for every Navigate result under the default policy.  The code violates it:
the IP/localhost shortcut appends a bracketed-IPv6 port without the
all-digits check applied to unbracketed ports, so classifying
`[::1]:abc` yields `Navigate{url:"http://[::1]:abc/"}`, whose
re-classification is a Search (the URL parser rejects the non-numeric
port), not a Navigate with the same url. -/
theorem C1_navigate_url_not_idempotent :
    classify "[::1]:abc" Policy.default = .Navigate "http://[::1]:abc/" ∧
    classify "http://[::1]:abc/" Policy.default = .Search "http://[::1]:abc/" :=
  ⟨rfl, rfl⟩

/-! ## Claim C2 -/

/-- Claim C2 counterexample: of the reserved names only `test` is in the
demo suffix database; hosts ending in `example`, `local` or `localhost`
are not known, for either value of allow_private. -/
theorem C2_reserved_names_counterexample :
    demoHasKnownSuffix "foo.example" false = false ∧
    demoHasKnownSuffix "foo.example" true = false ∧
    demoHasKnownSuffix "foo.local" false = false ∧
    demoHasKnownSuffix "foo.local" true = false ∧
    demoHasKnownSuffix "foo.localhost" false = false ∧
    demoHasKnownSuffix "foo.localhost" true = false :=
  ⟨rfl, rfl, rfl, rfl, rfl, rfl⟩

/-- Claim C2 (amended): in the demo suffix database only `test` of the
four reserved names is always known: any host whose lowercased,
trailing-dot-stripped form has at least two labels, the last being
`test`, has a known suffix for either value of allow_private. -/
theorem C2_demo_db_knows_test_suffix (host : String) (ap : Bool)
    (h2 : 2 ≤ (splitChar (asciiLowercase (stripAllTrailingDots host)) '.').length)
    (hlast : (splitChar (asciiLowercase (stripAllTrailingDots host)) '.').getLastD "" = "test") :
    demoHasKnownSuffix host ap = true := by
  unfold demoHasKnownSuffix
  rw [if_neg (by omega)]
  rw [hlast]
  rw [if_pos (by decide)]

theorem C2_demo_db_knows_test_suffix_witness :
    (2 ≤ (splitChar (asciiLowercase (stripAllTrailingDots "foo.test")) '.').length) ∧
    demoHasKnownSuffix "foo.test" false = true :=
  ⟨by decide, C2_demo_db_knows_test_suffix "foo.test" false (by decide) (by decide)⟩

/-! ## Claim C3 -/

/-- Claim C3 counterexample: the validator strips all trailing dots, not
exactly one, so a host with two trailing dots is accepted although the
claim requires it to fail. -/
theorem C3_two_trailing_dots_counterexample :
    host_like_valid "a.com.." = true ∧ hostValidSpecOne "a.com.." = false :=
  ⟨rfl, rfl⟩

theorem labelValidCode_eq_specLabelOk (l : String) :
    labelValidCode l = specLabelOk l := by
  unfold labelValidCode specLabelOk
  cases hd : l.data with
  | nil => simp [strStartsWith, strEndsWith, hd, startsWithL]
  | cons c cs =>
    have hstart : strStartsWith l "-" = decide (c = '-') := by
      have hm : ("-" : String).data = ['-'] := rfl
      rw [strStartsWith, hd, hm, startsWithL_cons_single]
    have hend : strEndsWith l "-" = decide ((c :: cs).getLastD ' ' = '-') := by
      rw [strEndsWith, hd]
      cases hrev : (c :: cs).reverse with
      | nil => simp at hrev
      | cons y ys =>
        have hy : (c :: cs).getLastD ' ' = y := by
          rw [← reverse_headD, hrev]; rfl
        have hm : (("-" : String).data).reverse = ['-'] := rfl
        rw [hm, startsWithL_cons_single, hy]
    rw [hstart, hend]
    simp only [List.length_cons, List.headD_cons]
    by_cases hP : cs.length + 1 ≤ 63
    · have e1 : decide (cs.length + 1 ≤ 63) = true := by simpa using hP
      by_cases hQ : c = '-'
      · rw [if_neg (by simp; omega), if_pos (Or.inl hQ)]
        have e2 : decide (c = '-') = true := by simpa using hQ
        rw [e2]
        simp
      · by_cases hR : (c :: cs).getLastD ' ' = '-'
        · rw [if_neg (by simp; omega), if_pos (Or.inr hR)]
          have e3 : decide ((c :: cs).getLastD ' ' = '-') = true := by simpa using hR
          rw [e3]
          simp
        · rw [if_neg (by simp; omega), if_neg (by tauto)]
          have e2 : decide (c = '-') = false := by simpa using hQ
          have e3 : decide ((c :: cs).getLastD ' ' = '-') = false := by simpa using hR
          have e4 : decide (1 ≤ cs.length + 1) = true := by simp
          rw [e1, e2, e3, e4]
          simp
    · rw [if_pos (Or.inr (by omega))]
      have e1 : decide (cs.length + 1 ≤ 63) = false := by simpa using hP
      rw [e1]
      simp

/-- Claim C3 (amended): the host validator agrees with the claimed
label/length conditions, except that it strips every trailing dot rather
than exactly one. -/
theorem C3_host_validator_strips_all_trailing_dots (host : String) :
    host_like_valid host = hostValidSpecAll host := by
  unfold host_like_valid hostValidSpecAll
  have hfun : labelValidCode = specLabelOk := funext labelValidCode_eq_specLabelOk
  by_cases h0 : host.data = []
  · have hstrip : (stripAllTrailingDots host).data = [] := by
      simp [stripAllTrailingDots, h0]
    simp [h0, hstrip]
  · rw [if_neg h0]
    by_cases h1 : (stripAllTrailingDots host).data = []
    · simp [h1]
    · rw [if_neg h1]
      rw [← hfun]
      have e0 : decide ((stripAllTrailingDots host).data ≠ []) = true := by
        simpa using h1
      cases h2 : (splitChar (stripAllTrailingDots host) '.').all labelValidCode with
      | false =>
        rw [if_pos (by simp [h2])]
        simp
      | true =>
        rw [if_neg (by simp [h2]), e0]
        by_cases h3 : 253 < (stripAllTrailingDots host).data.length
        · rw [if_pos h3]
          have e3 : decide ((stripAllTrailingDots host).data.length ≤ 253) = false := by
            simpa using h3
          rw [e3]
          simp
        · rw [if_neg h3]
          have e3 : decide ((stripAllTrailingDots host).data.length ≤ 253) = true :=
            decide_eq_true (by omega)
          rw [e3]
          simp

/-! ## Shape lemmas: the stage helpers only ever produce Navigate -/

theorem ip_or_localhost_navigate_shape {input : String} {d : Decision}
    (h : ip_or_localhost_navigate input = some d) :
    ∃ url, d = Decision.Navigate url := by
  simp only [ip_or_localhost_navigate] at h
  split at h
  · simp at h
  · split at h
    · injection h with h
      exact ⟨_, h.symm⟩
    · simp at h

theorem scheme_relative_navigate_shape {s : String} {d : Decision}
    (h : scheme_relative_navigate s = some d) :
    ∃ url, d = Decision.Navigate url := by
  simp only [scheme_relative_navigate] at h
  split at h
  · split at h
    · split at h
      · split at h
        · injection h with h
          exact ⟨_, h.symm⟩
        · simp at h
      · simp at h
    · simp at h
  · simp at h

theorem file_path_navigate_shape {policy : Policy} {s : String} {d : Decision}
    (h : file_path_navigate policy s = some d) :
    ∃ url, d = Decision.Navigate url := by
  simp only [file_path_navigate] at h
  split at h
  · obtain ⟨a, _, rfl⟩ := Option.map_eq_some'.mp h
    exact ⟨a, rfl⟩
  · simp at h

theorem classify_host_like_shape {input : String} {policy : Policy}
    {db : String → Bool → Bool} {d : Decision}
    (h : classify_host_like input policy db = some d) :
    ∃ url, d = Decision.Navigate url := by
  simp only [classify_host_like] at h
  split at h
  · rename_i nav hnav
    injection h with h
    subst h
    exact ip_or_localhost_navigate_shape hnav
  · split at h
    · simp at h
    · split at h
      · simp at h
      · split at h
        · simp at h
        · split at h
          · simp at h
          · split at h
            · simp at h
            · split at h
              · simp at h
              · split at h
                · injection h with h
                  exact ⟨_, h.symm⟩
                · split at h
                  · injection h with h
                    exact ⟨_, h.symm⟩
                  · split at h
                    · injection h with h
                      exact ⟨_, h.symm⟩
                    · split at h
                      · injection h with h
                        exact ⟨_, h.symm⟩
                      · split at h
                        · injection h with h
                          exact ⟨_, h.symm⟩
                        · simp at h

/-! ## Claim C7 -/

/-- Claim C7: whenever classify returns Search, the query is exactly the
outer-trimmed input (which is the empty string when the input trims to
empty); nothing else is altered. -/
theorem C7_search_query_is_trimmed_input (input : String) (policy : Policy)
    (db : String → Bool → Bool) (q : String)
    (h : classify_with_db input policy db = Decision.Search q) :
    q = rustTrim input := by
  simp only [classify_with_db] at h
  split at h
  · rename_i h0
    injection h with hq
    rw [← hq, h0]
  · split at h
    · simp at h
    · split at h
      · rename_i d hd
        obtain ⟨u, rfl⟩ := scheme_relative_navigate_shape hd
        simp at h
      · split at h
        · rename_i d hd
          obtain ⟨u, rfl⟩ := file_path_navigate_shape hd
          simp at h
        · split at h
          · injection h with hq
            rw [hq]
          · split at h
            · rename_i nav hnav
              obtain ⟨u, rfl⟩ := classify_host_like_shape hnav
              simp at h
            · injection h with hq
              rw [hq]

theorem C7_search_query_witness : ("a b c" : String) = rustTrim "a b c" :=
  C7_search_query_is_trimmed_input "a b c" Policy.default demoHasKnownSuffix
    "a b c" (by decide)

/-! ## Claim C4 -/

/-- Claim C4: when the synthetic http parse of a scheme-less token yields
an IPv4 host but the raw text before the first slash does not itself
parse as IPv4 in the strict four-octet form, the host-like stage defers;
concretely 1.2.7 searches while http://1.2.7 navigates to the zero-padded
http://1.2.0.7/. -/
theorem C4_ipv4_consistency_guard :
    (∀ (input : String) (policy : Policy) (db : String → Bool → Bool)
        (u : ParsedUrl) (hk : UrlHostKind) (ah : String),
      ip_or_localhost_navigate input = none →
      urlParse ("http://" ++ input) = some u →
      u.host = some hk →
      to_idna_ascii (hostToStr hk) = some ah →
      host_like_valid ah = true →
      (ipv4AddrParse ah).isSome = true →
      ipv4AddrParse (strTakeUntil input '/') = none →
      classify_host_like input policy db = none) ∧
    classify "1.2.7" Policy.default = Decision.Search "1.2.7" ∧
    classify "http://1.2.7" Policy.default = Decision.Navigate "http://1.2.0.7/" := by
  refine ⟨?_, rfl, rfl⟩
  intro input policy db u hk ah hip hurl hhost hidna hvalid hipv4 hraw
  simp only [classify_host_like, hip, hurl, hhost, hidna]
  rw [if_neg (not_not_intro hvalid)]
  rw [if_pos ⟨hipv4, by simp [hraw]⟩]

theorem C4_ipv4_consistency_guard_witness :
    classify_host_like "1.2.7" Policy.default demoHasKnownSuffix = none :=
  C4_ipv4_consistency_guard.1 "1.2.7" Policy.default demoHasKnownSuffix
    ⟨"http", "", "", some (.ipv4 16908295), none, "/", none, none⟩
    (.ipv4 16908295) "1.2.0.7" (by decide) (by decide) rfl (by decide)
    (by decide) (by decide) (by decide)

/-! ## Claim C6 -/

/-- Claim C6: the userinfo guard: a synthetic parse carrying a username
but no password, path, port or fragment makes the host-like stage defer,
so a bare user@example.com is searched. -/
theorem C6_userinfo_guard :
    (∀ (input : String) (policy : Policy) (db : String → Bool → Bool)
        (u : ParsedUrl),
      ip_or_localhost_navigate input = none →
      urlParse ("http://" ++ input) = some u →
      u.username ≠ "" →
      u.password = "" →
      u.port = none →
      u.path = "/" →
      u.fragment = none →
      classify_host_like input policy db = none) ∧
    classify "user@example.com" Policy.default = Decision.Search "user@example.com" := by
  refine ⟨?_, rfl⟩
  intro input policy db u hip hurl huser hpass hport hpath hfrag
  simp only [classify_host_like, hip, hurl]
  split
  · rfl
  · split
    · rfl
    · rename_i ah hidna
      by_cases hvalid : host_like_valid ah
      · rw [if_neg (not_not_intro hvalid)]
        by_cases hip4 : ((ipv4AddrParse ah).isSome = true) ∧
            ¬ ((ipv4AddrParse (strTakeUntil input '/')).isSome = true)
        · rw [if_pos hip4]
        · rw [if_neg hip4]
          rw [if_pos ⟨huser, hpass, by simp [hpath], by simp [hport], by simp [hfrag]⟩]
      · rw [if_pos hvalid]

theorem C6_userinfo_guard_witness :
    classify_host_like "user@example.com" Policy.default demoHasKnownSuffix = none :=
  C6_userinfo_guard.1 "user@example.com" Policy.default demoHasKnownSuffix
    ⟨"http", "user", "", some (.domain "example.com"), none, "/", none, none⟩
    (by decide) (by decide) (by decide) rfl rfl rfl rfl

/-! ## Claim C5 -/

/-- Claim C5 counterexample: with allow_file_paths enabled, a multi-word
input that forms neither an absolute URL (stage 2) nor a scheme-relative
URL (stage 3) can still navigate, through the file-path stage, so the
claim fails for that policy. -/
theorem C5_file_path_counterexample :
    1 < countTokens (rustTrim "/a b") ∧
    parse_absolute_url_if_allowed (rustTrim "/a b")
      { Policy.default with allow_file_paths := true } = none ∧
    scheme_relative_navigate (rustTrim "/a b") = none ∧
    classify_with_db "/a b" { Policy.default with allow_file_paths := true }
      demoHasKnownSuffix = Decision.Navigate "file:///a%20b" :=
  ⟨by decide, rfl, rfl, rfl⟩

/-- Claim C5 (amended): for every policy with file paths disabled, a
trimmed input with more than one whitespace-separated token that passes
neither the absolute-URL stage nor the scheme-relative stage is searched
with the outer-trimmed input as query. -/
theorem C5_multiword_search (input : String) (policy : Policy)
    (db : String → Bool → Bool)
    (hfp : policy.allow_file_paths = false)
    (habs : parse_absolute_url_if_allowed (rustTrim input) policy = none)
    (hrel : scheme_relative_navigate (rustTrim input) = none)
    (htok : 1 < countTokens (rustTrim input)) :
    classify_with_db input policy db = Decision.Search (rustTrim input) := by
  have hne : ¬ (rustTrim input = "") := by
    intro h
    rw [h] at htok
    exact absurd htok (by decide)
  simp only [classify_with_db, habs, hrel, file_path_navigate, hfp]
  rw [if_neg hne, if_pos htok]
  simp

theorem C5_multiword_search_witness :
    classify_with_db " a b " Policy.default demoHasKnownSuffix =
      Decision.Search (rustTrim " a b ") :=
  C5_multiword_search " a b " Policy.default demoHasKnownSuffix rfl
    (by decide) (by decide) (by decide)

/-! ## Claim C8 -/

/-- Claim C8 counterexample: a policy record supplying only
allow_intranet_single_label=true does not keep that value with the rest
defaulted: deserialization fails (the other fields carry no serde
default) and the boundary falls back to the full default policy, in which
allow_intranet_single_label is false. -/
theorem C8_partial_policy_counterexample :
    policyFromJson (Json.obj [("allow_intranet_single_label", Json.bool true)]) = none ∧
    policyFromJsonOrDefault (Json.obj [("allow_intranet_single_label", Json.bool true)]) =
      Policy.default ∧
    Policy.default.allow_intranet_single_label = false :=
  ⟨rfl, rfl, rfl⟩

theorem strListOfJson_map : ∀ ss : List String,
    strListOfJson (ss.map Json.str) = some ss := by
  intro ss
  induction ss with
  | nil => rfl
  | cons s rest ih => simp [strListOfJson, ih]

theorem jsonLookup_append_some {base extra : List (String × Json)} {k : String}
    {j : Json} (h : jsonLookup base k = some j) :
    jsonLookup (base ++ extra) k = some j := by
  unfold jsonLookup at h ⊢
  rw [List.find?_append]
  cases hf : base.find? (fun kv => kv.1 = k) with
  | none => rw [hf] at h; simp at h
  | some kv =>
    rw [hf] at h
    simpa using h

theorem jsonLookup_append_none {base extra : List (String × Json)} {k : String}
    (h1 : jsonLookup base k = none)
    (h2 : ∀ kv ∈ extra, kv.1 ≠ k) :
    jsonLookup (base ++ extra) k = none := by
  unfold jsonLookup at h1 ⊢
  rw [List.find?_append]
  have hb : base.find? (fun kv => kv.1 = k) = none := by
    cases hf : base.find? (fun kv => kv.1 = k) with
    | none => rfl
    | some kv => rw [hf] at h1; simp at h1
  have he : extra.find? (fun kv => kv.1 = k) = none :=
    List.find?_eq_none.mpr (fun kv hkv => by simp [h2 kv hkv])
  rw [hb, he]
  rfl

/-- Claim C8 (amended): only allow_file_paths may be omitted (defaulting
to false) and unknown fields are ignored; a record missing any one of the
four other fields is malformed, and every malformed record non-fatally
falls back to the complete default policy, discarding supplied values. -/
theorem C8_policy_deserialization :
    (∀ fields : List (String × Json),
      jsonLookup fields "allow_intranet_multi_label" = none →
      policyFromJson (Json.obj fields) = none) ∧
    (∀ fields : List (String × Json),
      jsonLookup fields "allow_intranet_single_label" = none →
      policyFromJson (Json.obj fields) = none) ∧
    (∀ fields : List (String × Json),
      jsonLookup fields "allow_private_suffix" = none →
      policyFromJson (Json.obj fields) = none) ∧
    (∀ fields : List (String × Json),
      jsonLookup fields "allowed_schemes" = none →
      policyFromJson (Json.obj fields) = none) ∧
    (∀ (a b c : Bool) (ss : List String) (extra : List (String × Json)),
      (∀ kv ∈ extra, kv.1 ∉ policyFieldNames) →
      policyFromJsonOrDefault (Json.obj
        ([("allow_intranet_multi_label", Json.bool a),
          ("allow_intranet_single_label", Json.bool b),
          ("allow_private_suffix", Json.bool c),
          ("allowed_schemes", Json.arr (ss.map Json.str))] ++ extra)) =
      ⟨a, b, c, ss, false⟩) ∧
    (∀ j : Json, policyFromJson j = none → policyFromJsonOrDefault j = Policy.default) := by
  refine ⟨?_, ?_, ?_, ?_, ?_, ?_⟩
  · intro fields h
    simp only [policyFromJson]
    rw [h]
    by_cases hdup : (policyFieldNames.all
        (fun k => (fields.filter (fun kv => kv.1 = k)).length ≤ 1)) = true
    · rw [if_pos hdup]
      rfl
    · rw [if_neg hdup]
  · intro fields h
    simp only [policyFromJson]
    rw [h]
    by_cases hdup : (policyFieldNames.all
        (fun k => (fields.filter (fun kv => kv.1 = k)).length ≤ 1)) = true
    · rw [if_pos hdup]
      cases (jsonLookup fields "allow_intranet_multi_label").bind jsonAsBool <;> rfl
    · rw [if_neg hdup]
  · intro fields h
    simp only [policyFromJson]
    rw [h]
    by_cases hdup : (policyFieldNames.all
        (fun k => (fields.filter (fun kv => kv.1 = k)).length ≤ 1)) = true
    · rw [if_pos hdup]
      cases (jsonLookup fields "allow_intranet_multi_label").bind jsonAsBool <;>
        cases (jsonLookup fields "allow_intranet_single_label").bind jsonAsBool <;> rfl
    · rw [if_neg hdup]
  · intro fields h
    simp only [policyFromJson]
    rw [h]
    by_cases hdup : (policyFieldNames.all
        (fun k => (fields.filter (fun kv => kv.1 = k)).length ≤ 1)) = true
    · rw [if_pos hdup]
      cases (jsonLookup fields "allow_intranet_multi_label").bind jsonAsBool <;>
        cases (jsonLookup fields "allow_intranet_single_label").bind jsonAsBool <;>
        cases (jsonLookup fields "allow_private_suffix").bind jsonAsBool <;> rfl
    · rw [if_neg hdup]
  · intro a b c ss extra hextra
    have hk1 : jsonLookup
        ([("allow_intranet_multi_label", Json.bool a),
          ("allow_intranet_single_label", Json.bool b),
          ("allow_private_suffix", Json.bool c),
          ("allowed_schemes", Json.arr (ss.map Json.str))] ++ extra)
        "allow_intranet_multi_label" = some (Json.bool a) :=
      jsonLookup_append_some rfl
    have hk2 : jsonLookup
        ([("allow_intranet_multi_label", Json.bool a),
          ("allow_intranet_single_label", Json.bool b),
          ("allow_private_suffix", Json.bool c),
          ("allowed_schemes", Json.arr (ss.map Json.str))] ++ extra)
        "allow_intranet_single_label" = some (Json.bool b) :=
      jsonLookup_append_some rfl
    have hk3 : jsonLookup
        ([("allow_intranet_multi_label", Json.bool a),
          ("allow_intranet_single_label", Json.bool b),
          ("allow_private_suffix", Json.bool c),
          ("allowed_schemes", Json.arr (ss.map Json.str))] ++ extra)
        "allow_private_suffix" = some (Json.bool c) :=
      jsonLookup_append_some rfl
    have hk4 : jsonLookup
        ([("allow_intranet_multi_label", Json.bool a),
          ("allow_intranet_single_label", Json.bool b),
          ("allow_private_suffix", Json.bool c),
          ("allowed_schemes", Json.arr (ss.map Json.str))] ++ extra)
        "allowed_schemes" = some (Json.arr (ss.map Json.str)) :=
      jsonLookup_append_some rfl
    have hkf : jsonLookup
        ([("allow_intranet_multi_label", Json.bool a),
          ("allow_intranet_single_label", Json.bool b),
          ("allow_private_suffix", Json.bool c),
          ("allowed_schemes", Json.arr (ss.map Json.str))] ++ extra)
        "allow_file_paths" = none :=
      jsonLookup_append_none rfl
        (fun kv hkv hq => hextra kv hkv (by rw [hq]; decide))
    have hfe : ∀ k, k ∈ policyFieldNames →
        extra.filter (fun kv => kv.1 = k) = [] := by
      intro k hk
      apply List.filter_eq_nil_iff.mpr
      intro kv hkv
      simp only [decide_eq_true_eq]
      exact fun hq => hextra kv hkv (by rw [hq]; exact hk)
    have hdup : (policyFieldNames.all
        (fun k => ((([("allow_intranet_multi_label", Json.bool a),
          ("allow_intranet_single_label", Json.bool b),
          ("allow_private_suffix", Json.bool c),
          ("allowed_schemes", Json.arr (ss.map Json.str))] ++ extra).filter
            (fun kv => kv.1 = k)).length ≤ 1))) = true := by
      simp only [policyFieldNames, List.all_cons, List.all_nil, List.filter_append]
      rw [hfe "allow_intranet_multi_label" (by decide),
        hfe "allow_intranet_single_label" (by decide),
        hfe "allow_private_suffix" (by decide),
        hfe "allowed_schemes" (by decide),
        hfe "allow_file_paths" (by decide)]
      rfl
    simp only [policyFromJsonOrDefault, policyFromJson]
    rw [if_pos hdup, hk1, hk2, hk3, hk4, hkf]
    simp [jsonAsBool, jsonAsStrList, strListOfJson_map]
  · intro j h
    rw [policyFromJsonOrDefault, h]
    rfl

/-! ## Stage-skip lemmas for inputs that start with a non-scheme character -/

theorem parse_absolute_none_of_head_not_alpha (s : String) (policy : Policy)
    (c : Char) (rest : List Char) (hs : s.data = c :: rest)
    (hc : c.isAlpha = false) :
    parse_absolute_url_if_allowed s policy = none := by
  unfold parse_absolute_url_if_allowed strSplitOnce
  rw [hs]
  by_cases hcc : c = ':'
  · subst hcc
    rw [show splitOnceL ':' (':' :: rest) = some ([], rest) from by simp [splitOnceL]]
    simp [is_valid_scheme]
  · rw [splitOnceL_cons_ne rest hcc]
    cases h2 : splitOnceL ':' rest with
    | none => rfl
    | some p =>
      simp [is_valid_scheme, hc]

theorem scheme_relative_none_of_head (s : String) (c : Char) (rest : List Char)
    (hs : s.data = c :: rest) (hc : c ≠ '/') :
    scheme_relative_navigate s = none := by
  unfold scheme_relative_navigate strStartsWith
  rw [hs, show ("//" : String).data = ['/', '/'] from rfl]
  rw [startsWithL_cons_two _ _ _ _ hc]
  rfl

theorem file_path_navigate_none_of_head (policy : Policy) (s : String)
    (c : Char) (rest : List Char) (hs : s.data = c :: rest) (hc : c ≠ '/') :
    file_path_navigate policy s = none := by
  unfold file_path_navigate is_file_path strStartsWith
  rw [hs, show ("/" : String).data = ['/'] from rfl, startsWithL_cons_single]
  simp [hc]

theorem all_digits_not_contains {l : List Char} (h : l.all Char.isDigit = true)
    (c : Char) (hc : c.isDigit = false) : containsCharL l c = false := by
  simp only [containsCharL, List.any_eq_false, decide_eq_false_iff_not]
  intro x hx heq
  have hxc : x = c := of_decide_eq_true heq
  rw [hxc] at hx
  have h2 := List.all_eq_true.mp h c hx
  rw [hc] at h2
  exact absurd h2 (by simp)

/-! ## Claim C9 -/

theorem ip_or_localhost_bracketed (v6 text : String)
    (hv6ip : (ipv6AddrParse v6).isSome = true)
    (hv6colon : strContains v6 ':' = true)
    (hv6rb : containsCharL v6.data ']' = false)
    (hv6slash : containsCharL v6.data '/' = false)
    (hv6nb : strStartsWith v6 "[" = false)
    (htextslash : containsCharL text.data '/' = false)
    (hTrim : rustTrim ("[" ++ v6 ++ "]:" ++ text) = "[" ++ v6 ++ "]:" ++ text) :
    ip_or_localhost_navigate ("[" ++ v6 ++ "]:" ++ text) =
      some (Decision.Navigate ("http://[" ++ v6 ++ "]:" ++ text ++ "/")) := by
  have hdata : ("[" ++ v6 ++ "]:" ++ text).data =
      '[' :: (v6.data ++ ']' :: ':' :: text.data) := by
    simp [String.data_append]
  have hsw : strStartsWith ("[" ++ v6 ++ "]:" ++ text) "//" = false := by
    unfold strStartsWith
    rw [hdata, show ("//" : String).data = ['/', '/'] from rfl]
    exact startsWithL_cons_two _ _ _ _ (by decide)
  have hstrip : stripPre ("[" ++ v6 ++ "]:" ++ text) "//" = none := by
    unfold stripPre
    rw [hsw]
    rfl
  have hslash : containsCharL ("[" ++ v6 ++ "]:" ++ text).data '/' = false := by
    rw [hdata]
    simp only [containsCharL] at hv6slash htextslash ⊢
    simp [hv6slash, htextslash]
  have hsplit : strSplitOnce ("[" ++ v6 ++ "]:" ++ text) '/' = none := by
    unfold strSplitOnce
    rw [splitOnceL_eq_none hslash]
  have hswb : strStartsWith ("[" ++ v6 ++ "]:" ++ text) "[" = true := by
    unfold strStartsWith
    rw [hdata, show ("[" : String).data = ['['] from rfl, startsWithL_cons_single]
    simp
  have hbr : splitOnceL ']' ("[" ++ v6 ++ "]:" ++ text).data =
      some ('[' :: v6.data, ':' :: text.data) := by
    rw [hdata, splitOnceL_cons_ne _ (by decide : '[' ≠ ']'),
      splitOnceL_append _ hv6rb]
    rfl
  have hipok : ipAddrParseOk v6 = true := by
    simp [ipAddrParseOk, hv6ip]
  simp only [ip_or_localhost_navigate, hTrim, hstrip, hsplit, hswb, hbr, hipok,
    hv6colon, hv6nb, string_eta, List.drop_succ_cons, List.drop_zero]
  simp only [not_true, and_false, if_false, if_true, ite_false, ite_true,
    eq_self_iff_true, or_true, true_and, and_true]
  rw [if_pos (Or.inr hipok), if_pos ⟨hv6colon, by simp [hv6nb]⟩]
  refine congrArg (fun u => some (Decision.Navigate u)) (string_ext ?_)
  simp [String.data_append]

/-- Claim C9: for an input of the shape bracketed-IPv6 followed by a colon
and non-empty slash-free text, classification navigates and appends the
text verbatim after a colon as the port, with no all-digits check, while
an unbracketed authority with a non-digit port suffix is not split at the
colon (127.0.0.1:abc is searched). -/
theorem C9_bracketed_ipv6_nonnumeric_port :
    (∀ (v6 text : String) (policy : Policy) (db : String → Bool → Bool),
      (ipv6AddrParse v6).isSome = true →
      strContains v6 ':' = true →
      containsCharL v6.data ']' = false →
      containsCharL v6.data '/' = false →
      strStartsWith v6 "[" = false →
      text ≠ "" →
      containsCharL text.data '/' = false →
      rustTrim ("[" ++ v6 ++ "]:" ++ text) = "[" ++ v6 ++ "]:" ++ text →
      countTokens ("[" ++ v6 ++ "]:" ++ text) = 1 →
      classify_with_db ("[" ++ v6 ++ "]:" ++ text) policy db =
        Decision.Navigate ("http://[" ++ v6 ++ "]:" ++ text ++ "/")) ∧
    classify "127.0.0.1:abc" Policy.default = Decision.Search "127.0.0.1:abc" := by
  refine ⟨?_, rfl⟩
  intro v6 text policy db hv6ip hv6colon hv6rb hv6slash hv6nb htext htextslash hTrim htok
  have hdata : ("[" ++ v6 ++ "]:" ++ text).data =
      '[' :: (v6.data ++ ']' :: ':' :: text.data) := by
    simp [String.data_append]
  have hne : ¬ ("[" ++ v6 ++ "]:" ++ text) = "" := by
    intro h
    rw [h] at hdata
    exact absurd hdata (by simp)
  have hip := ip_or_localhost_bracketed v6 text hv6ip hv6colon hv6rb hv6slash
    hv6nb htextslash hTrim
  have habs := parse_absolute_none_of_head_not_alpha ("[" ++ v6 ++ "]:" ++ text)
    policy '[' _ hdata (by decide)
  have hrel := scheme_relative_none_of_head ("[" ++ v6 ++ "]:" ++ text)
    '[' _ hdata (by decide)
  have hfile := file_path_navigate_none_of_head policy ("[" ++ v6 ++ "]:" ++ text)
    '[' _ hdata (by decide)
  have hnottok : ¬ (1 < countTokens ("[" ++ v6 ++ "]:" ++ text)) := by
    rw [htok]
    decide
  simp only [classify_with_db, hTrim, habs, hrel, hfile, classify_host_like, hip]
  rw [if_neg hne, if_neg hnottok]

theorem C9_bracketed_ipv6_nonnumeric_port_witness :
    classify_with_db "[::1]:abc" Policy.default demoHasKnownSuffix =
      Decision.Navigate "http://[::1]:abc/" :=
  C9_bracketed_ipv6_nonnumeric_port.1 "::1" "abc" Policy.default
    demoHasKnownSuffix (by decide) (by decide) (by decide) (by decide)
    (by decide) (by decide) (by decide) (by decide) (by decide)

/-- Claim C10: a bare unbracketed token whose last colon-separated group
is non-empty and all decimal digits is split at the last colon by the IP
shortcut, the final group becoming the port and the preceding text the
host; when that preceding text is a valid IP address the result
navigates with the host bracketed (::8a2e:370:7334 becomes
http://[::8a2e:370]:7334/), and when it is not (::1, whose prefix : is
no address) the shortcut fails and the token is searched. -/
theorem C10_unbracketed_ipv6_port_split :
    (∀ (host port : String),
      ipAddrParseOk host = true →
      strContains host ':' = true →
      strStartsWith host "[" = false →
      containsCharL host.data '/' = false →
      port ≠ "" →
      port.data.all Char.isDigit = true →
      rustTrim (host ++ ":" ++ port) = host ++ ":" ++ port →
      ip_or_localhost_navigate (host ++ ":" ++ port) =
        some (Decision.Navigate ("http://[" ++ host ++ "]:" ++ port ++ "/"))) ∧
    classify "::8a2e:370:7334" Policy.default =
      Decision.Navigate "http://[::8a2e:370]:7334/" ∧
    classify "::1" Policy.default = Decision.Search "::1" := by
  refine ⟨?_, rfl, rfl⟩
  intro host port hip hcolon hnb hslash hpne hpdig hTrim
  have hdata : (host ++ ":" ++ port).data = host.data ++ ':' :: port.data := by
    simp [String.data_append]
  obtain ⟨c, cs, hhost⟩ : ∃ c cs, host.data = c :: cs := by
    cases hh : host.data with
    | nil =>
      rw [strContains, hh] at hcolon
      exact absurd hcolon (by decide)
    | cons c cs => exact ⟨c, cs, rfl⟩
  have hcs : c ≠ '/' :=
    containsCharL_mem hslash (by rw [hhost]; exact List.mem_cons_self _ _)
  have hcb : c ≠ '[' := by
    intro h
    rw [strStartsWith, hhost, show ("[" : String).data = ['['] from rfl,
      startsWithL_cons_single] at hnb
    simp [h] at hnb
  have hdata2 : (host ++ ":" ++ port).data = c :: (cs ++ ':' :: port.data) := by
    rw [hdata, hhost]
    rfl
  have hsw : strStartsWith (host ++ ":" ++ port) "//" = false := by
    unfold strStartsWith
    rw [hdata2, show ("//" : String).data = ['/', '/'] from rfl]
    exact startsWithL_cons_two _ _ _ _ hcs
  have hstrip : stripPre (host ++ ":" ++ port) "//" = none := by
    unfold stripPre
    rw [hsw]
    rfl
  have hpslash : containsCharL port.data '/' = false :=
    all_digits_not_contains hpdig '/' (by decide)
  have hnoslash : containsCharL (host ++ ":" ++ port).data '/' = false := by
    rw [hdata]
    simp only [containsCharL] at hslash hpslash ⊢
    simp [hslash, hpslash]
  have hsplit : strSplitOnce (host ++ ":" ++ port) '/' = none := by
    unfold strSplitOnce
    rw [splitOnceL_eq_none hnoslash]
  have hswb : strStartsWith (host ++ ":" ++ port) "[" = false := by
    unfold strStartsWith
    rw [hdata2, show ("[" : String).data = ['['] from rfl, startsWithL_cons_single]
    simp [hcb]
  have hpc : containsCharL port.data ':' = false :=
    all_digits_not_contains hpdig ':' (by decide)
  have hpcrev : containsCharL port.data.reverse ':' = false := by
    simpa [containsCharL, List.any_reverse] using hpc
  have hrsplit : rsplitOnceL ':' (host ++ ":" ++ port).data =
      some (host.data, port.data) := by
    unfold rsplitOnceL
    rw [hdata]
    rw [show (host.data ++ ':' :: port.data).reverse =
      port.data.reverse ++ ':' :: host.data.reverse from by simp]
    rw [splitOnceL_append _ hpcrev]
    simp
  have hsr : strRSplitOnce (host ++ ":" ++ port) ':' = some (host, port) := by
    unfold strRSplitOnce
    rw [hrsplit]
  have htc : strContains (host ++ ":" ++ port) ':' = true := by
    rw [strContains, hdata]
    simp [containsCharL]
  simp only [ip_or_localhost_navigate, hTrim, hstrip, hsplit, hswb, hsr, htc,
    hpdig, ne_eq, hpne, string_eta, hcolon, hnb]
  simp only [show (false = true) = False from by simp, show (¬False) = True from by simp,
    if_false, if_true, ite_false, ite_true, and_true, true_and, and_false,
    eq_self_iff_true, or_true, hcolon, hnb, hpne, hpdig, ne_eq, string_eta, hip]
  refine congrArg (fun u => some (Decision.Navigate u)) (string_ext ?_)
  simp [String.data_append]

theorem C10_unbracketed_ipv6_port_split_witness :
    ip_or_localhost_navigate "::8a2e:370:7334" =
      some (Decision.Navigate "http://[::8a2e:370]:7334/") :=
  C10_unbracketed_ipv6_port_split.1 "::8a2e:370" "7334" (by decide) (by decide)
    (by decide) (by decide) (by decide) (by decide) (by decide)

theorem C8_policy_deserialization_witness :
    policyFromJson (Json.obj
      [("allow_intranet_single_label", Json.bool true),
       ("allow_private_suffix", Json.bool true),
       ("allowed_schemes", Json.arr []),
       ("allow_file_paths", Json.bool true)]) = none ∧
    policyFromJson (Json.obj
      [("allow_intranet_multi_label", Json.bool true),
       ("allow_private_suffix", Json.bool true),
       ("allowed_schemes", Json.arr [])]) = none ∧
    policyFromJson (Json.obj
      [("allow_intranet_multi_label", Json.bool true),
       ("allow_intranet_single_label", Json.bool true),
       ("allowed_schemes", Json.arr [])]) = none ∧
    policyFromJson (Json.obj
      [("allow_intranet_multi_label", Json.bool true),
       ("allow_intranet_single_label", Json.bool true),
       ("allow_private_suffix", Json.bool true)]) = none ∧
    policyFromJsonOrDefault (Json.obj
      ([("allow_intranet_multi_label", Json.bool true),
        ("allow_intranet_single_label", Json.bool false),
        ("allow_private_suffix", Json.bool false),
        ("allowed_schemes", Json.arr [Json.str "http"])] ++
       [("unknown_extra_field", Json.null)])) =
      ⟨true, false, false, ["http"], false⟩ ∧
    policyFromJsonOrDefault (Json.obj []) = Policy.default :=
  ⟨C8_policy_deserialization.1 _ rfl,
   C8_policy_deserialization.2.1 _ rfl,
   C8_policy_deserialization.2.2.1 _ rfl,
   C8_policy_deserialization.2.2.2.1 _ rfl,
   C8_policy_deserialization.2.2.2.2.1 true false false ["http"]
     [("unknown_extra_field", Json.null)] (by decide),
   C8_policy_deserialization.2.2.2.2.2 (Json.obj []) rfl⟩

end UrlPredictor
